import Mathlib

/-!
Verification of the AST-based code-change analyzer
(`astTest.py` and `ast2.py` variants).

We shallowly embed the data model and the operations of both variants:
syntax trees, the structural fingerprint (`ASTHasher.visit`, whose md5
digest is determined by the concatenated stream of node type tags fed to
`hash.update`, so we model the digest as that concatenated string), the
deep structural comparison (`_compare_ast_nodes`), the symbol-table
visitor (`ASTVisitor`), the body-change classifier
(`_analyze_body_change`), the nested-function detector, the class-method
walker, the report assembly (`analyze_changes`), and the line-severity
scorer of the `ast2.py` variant (`_categorize_change`,
`_analyze_body_changes`).
-/

mutual
/-- A syntax-tree node: a type tag plus an ordered list of fields.
Field names are irrelevant to every operation of the program (iteration
is always in field order), so we keep only the ordered field values. -/
inductive ASTNode : Type where
  | mk (tag : String) (fields : List ASTField)

/-- A field value: a scalar leaf (identifier text, literal value, or a
non-node constant), a child node, or a list of child nodes. -/
inductive ASTField : Type where
  | leaf (v : String)
  | node (n : ASTNode)
  | many (ns : List ASTNode)
end

namespace ASTNode

def tag : ASTNode → String
  | .mk t _ => t

def fields : ASTNode → List ASTField
  | .mk _ fs => fs

end ASTNode

mutual
/-- Model of `ASTHasher.visit`: pre-order accumulation of node type
tags.  The md5 object absorbs `type(node).__name__` at each visited
node and ignores scalar leaf fields; digest equality is equality of the
concatenated tag stream (md5 treated as injective on its input
stream). -/
def ASTHasher.visit : ASTNode → String
  | .mk t fs => t ++ ASTHasher.visitFields fs

def ASTHasher.visitFields : List ASTField → String
  | [] => ""
  | f :: fs => ASTHasher.visitField f ++ ASTHasher.visitFields fs

def ASTHasher.visitField : ASTField → String
  | .leaf _ => ""
  | .node n => ASTHasher.visit n
  | .many ns => ASTHasher.visitList ns

def ASTHasher.visitList : List ASTNode → String
  | [] => ""
  | n :: ns => ASTHasher.visit n ++ ASTHasher.visitList ns
end

mutual
/-- Model of `_compare_ast_nodes`: deep structural equality over type
tag and every field; unlike the fingerprint it does compare leaf
values. -/
def compare_ast_nodes (a b : ASTNode) : Bool :=
  match a, b with
  | .mk t1 fs1, .mk t2 fs2 => t1 == t2 && compareFields fs1 fs2
termination_by structural a

def compareFields (a b : List ASTField) : Bool :=
  match a, b with
  | [], [] => true
  | f1 :: fs1, f2 :: fs2 => compareField f1 f2 && compareFields fs1 fs2
  | _, _ => false
termination_by structural a

def compareField (a b : ASTField) : Bool :=
  match a, b with
  | .leaf a, .leaf b => a == b
  | .node a, .node b => compare_ast_nodes a b
  | .many as, .many bs => compareNodeList as bs
  | _, _ => false
termination_by structural a

def compareNodeList (a b : List ASTNode) : Bool :=
  match a, b with
  | [], [] => true
  | x :: xs, y :: ys => compare_ast_nodes x y && compareNodeList xs ys
  | _, _ => false
termination_by structural a
end

mutual
theorem compare_ast_nodes_eq_true : ∀ a b : ASTNode, compare_ast_nodes a b = true ↔ a = b
  | .mk t1 fs1, .mk t2 fs2 => by
    rw [compare_ast_nodes, Bool.and_eq_true]
    constructor
    · rintro ⟨h1, h2⟩
      have ht : t1 = t2 := by simpa using h1
      have hf : fs1 = fs2 := (compareFields_eq_true fs1 fs2).mp h2
      rw [ht, hf]
    · intro h
      injection h with ht hf
      exact ⟨by simp [ht], (compareFields_eq_true fs1 fs2).mpr hf⟩

theorem compareFields_eq_true : ∀ a b : List ASTField, compareFields a b = true ↔ a = b
  | [], [] => by simp [compareFields]
  | [], _ :: _ => by simp [compareFields]
  | _ :: _, [] => by simp [compareFields]
  | f1 :: fs1, f2 :: fs2 => by
    rw [compareFields, Bool.and_eq_true, compareField_eq_true f1 f2,
      compareFields_eq_true fs1 fs2]
    constructor
    · rintro ⟨h1, h2⟩; rw [h1, h2]
    · intro h; injection h with h1 h2; exact ⟨h1, h2⟩

theorem compareField_eq_true : ∀ a b : ASTField, compareField a b = true ↔ a = b
  | .leaf a, .leaf b => by simp [compareField]
  | .leaf _, .node _ => by simp [compareField]
  | .leaf _, .many _ => by simp [compareField]
  | .node _, .leaf _ => by simp [compareField]
  | .node a, .node b => by
    rw [compareField, compare_ast_nodes_eq_true a b]
    constructor
    · intro h; rw [h]
    · intro h; injection h
  | .node _, .many _ => by simp [compareField]
  | .many _, .leaf _ => by simp [compareField]
  | .many _, .node _ => by simp [compareField]
  | .many as, .many bs => by
    rw [compareField, compareNodeList_eq_true as bs]
    constructor
    · intro h; rw [h]
    · intro h; injection h

theorem compareNodeList_eq_true : ∀ a b : List ASTNode, compareNodeList a b = true ↔ a = b
  | [], [] => by simp [compareNodeList]
  | [], _ :: _ => by simp [compareNodeList]
  | _ :: _, [] => by simp [compareNodeList]
  | a :: as, b :: bs => by
    rw [compareNodeList, Bool.and_eq_true, compare_ast_nodes_eq_true a b,
      compareNodeList_eq_true as bs]
    constructor
    · rintro ⟨h1, h2⟩; rw [h1, h2]
    · intro h; injection h with h1 h2; exact ⟨h1, h2⟩
end

instance : DecidableEq ASTNode := fun a b =>
  decidable_of_iff (compare_ast_nodes a b = true) (compare_ast_nodes_eq_true a b)

instance : DecidableEq ASTField := fun a b =>
  decidable_of_iff (compareField a b = true) (compareField_eq_true a b)

theorem compare_ast_nodes_refl (a : ASTNode) : compare_ast_nodes a a = true :=
  (compare_ast_nodes_eq_true a a).mpr rfl

mutual
/-- Shape equality: equal type tags and field structure, ignoring the
values of scalar leaf fields.  Two subtrees related by `sameShape`
differ at most in identifier names and literal values. -/
def sameShape (a b : ASTNode) : Bool :=
  match a, b with
  | .mk t1 fs1, .mk t2 fs2 => t1 == t2 && sameShapeFields fs1 fs2
termination_by structural a

def sameShapeFields (a b : List ASTField) : Bool :=
  match a, b with
  | [], [] => true
  | f1 :: fs1, f2 :: fs2 => sameShapeField f1 f2 && sameShapeFields fs1 fs2
  | _, _ => false
termination_by structural a

def sameShapeField (a b : ASTField) : Bool :=
  match a, b with
  | .leaf _, .leaf _ => true
  | .node x, .node y => sameShape x y
  | .many xs, .many ys => sameShapeList xs ys
  | _, _ => false
termination_by structural a

def sameShapeList (a b : List ASTNode) : Bool :=
  match a, b with
  | [], [] => true
  | x :: xs, y :: ys => sameShape x y && sameShapeList xs ys
  | _, _ => false
termination_by structural a
end

mutual
theorem visit_eq_of_sameShape : ∀ a b : ASTNode, sameShape a b = true →
    ASTHasher.visit a = ASTHasher.visit b
  | .mk t1 fs1, .mk t2 fs2 => by
    rw [sameShape, Bool.and_eq_true]
    rintro ⟨h1, h2⟩
    have ht : t1 = t2 := by simpa using h1
    rw [ASTHasher.visit, ASTHasher.visit, ht,
      visitFields_eq_of_sameShape fs1 fs2 h2]

theorem visitFields_eq_of_sameShape : ∀ a b : List ASTField, sameShapeFields a b = true →
    ASTHasher.visitFields a = ASTHasher.visitFields b
  | [], [] => by intro _; rfl
  | [], _ :: _ => by intro h; exact absurd h (by simp [sameShapeFields])
  | _ :: _, [] => by intro h; exact absurd h (by simp [sameShapeFields])
  | f1 :: fs1, f2 :: fs2 => by
    rw [sameShapeFields, Bool.and_eq_true]
    rintro ⟨h1, h2⟩
    rw [ASTHasher.visitFields, ASTHasher.visitFields,
      visitField_eq_of_sameShape f1 f2 h1, visitFields_eq_of_sameShape fs1 fs2 h2]

theorem visitField_eq_of_sameShape : ∀ a b : ASTField, sameShapeField a b = true →
    ASTHasher.visitField a = ASTHasher.visitField b
  | .leaf _, .leaf _ => by intro _; rfl
  | .leaf _, .node _ => by intro h; exact absurd h (by simp [sameShapeField])
  | .leaf _, .many _ => by intro h; exact absurd h (by simp [sameShapeField])
  | .node _, .leaf _ => by intro h; exact absurd h (by simp [sameShapeField])
  | .node a, .node b => by
    rw [sameShapeField]
    intro h
    rw [ASTHasher.visitField, ASTHasher.visitField, visit_eq_of_sameShape a b h]
  | .node _, .many _ => by intro h; exact absurd h (by simp [sameShapeField])
  | .many _, .leaf _ => by intro h; exact absurd h (by simp [sameShapeField])
  | .many _, .node _ => by intro h; exact absurd h (by simp [sameShapeField])
  | .many as, .many bs => by
    rw [sameShapeField]
    intro h
    rw [ASTHasher.visitField, ASTHasher.visitField, visitList_eq_of_sameShape as bs h]

theorem visitList_eq_of_sameShape : ∀ a b : List ASTNode, sameShapeList a b = true →
    ASTHasher.visitList a = ASTHasher.visitList b
  | [], [] => by intro _; rfl
  | [], _ :: _ => by intro h; exact absurd h (by simp [sameShapeList])
  | _ :: _, [] => by intro h; exact absurd h (by simp [sameShapeList])
  | a :: as, b :: bs => by
    rw [sameShapeList, Bool.and_eq_true]
    rintro ⟨h1, h2⟩
    rw [ASTHasher.visitList, ASTHasher.visitList, visit_eq_of_sameShape a b h1,
      visitList_eq_of_sameShape as bs h2]
end

example : ASTHasher.visit (.mk "Pass" []) = "Pass" := by rfl

/-- Child nodes of a field, in field order: the iteration performed by
`ast.iter_fields` when only node-valued entries are kept. -/
def ASTField.childNodes : ASTField → List ASTNode
  | .leaf _ => []
  | .node n => [n]
  | .many ns => ns

/-- All child nodes of a node, in field order. -/
def ASTNode.children (n : ASTNode) : List ASTNode :=
  n.fields.flatMap ASTField.childNodes

mutual
def ASTNode.size : ASTNode → Nat
  | .mk _ fs => 1 + sizeFields fs

def sizeFields : List ASTField → Nat
  | [] => 0
  | f :: fs => sizeField f + sizeFields fs

def sizeField : ASTField → Nat
  | .leaf _ => 1
  | .node n => n.size
  | .many ns => sizeList ns

def sizeList : List ASTNode → Nat
  | [] => 0
  | n :: ns => n.size + sizeList ns
end

def sumSize (l : List ASTNode) : Nat := (l.map ASTNode.size).sum

theorem sumSize_eq_sizeList : ∀ l : List ASTNode, sumSize l = sizeList l
  | [] => rfl
  | n :: ns => by
    rw [sizeList]
    simpa [sumSize, List.map_cons] using congrArg (n.size + ·) (sumSize_eq_sizeList ns)

theorem sumSize_append (a b : List ASTNode) : sumSize (a ++ b) = sumSize a + sumSize b := by
  simp [sumSize]

theorem sumSize_childNodes_le (f : ASTField) : sumSize f.childNodes ≤ sizeField f := by
  cases f with
  | leaf v => simp [ASTField.childNodes, sumSize, sizeField]
  | node n => simp [ASTField.childNodes, sumSize, sizeField]
  | many ns => simp [ASTField.childNodes, sumSize_eq_sizeList, sizeField]

theorem sumSize_fieldsChildren_le : ∀ fs : List ASTField,
    sumSize (fs.flatMap ASTField.childNodes) ≤ sizeFields fs
  | [] => by simp [sumSize, sizeFields]
  | f :: fs => by
    rw [List.flatMap_cons, sumSize_append, sizeFields]
    exact Nat.add_le_add (sumSize_childNodes_le f) (sumSize_fieldsChildren_le fs)

theorem sumSize_children_lt (n : ASTNode) : sumSize n.children < n.size := by
  cases n with
  | mk t fs =>
    rw [ASTNode.size, ASTNode.children, ASTNode.fields]
    exact Nat.lt_of_le_of_lt (sumSize_fieldsChildren_le fs) (by omega)

theorem sumSize_bind_children_le : ∀ l : List ASTNode,
    sumSize (l.flatMap ASTNode.children) ≤ sumSize l
  | [] => by simp [sumSize]
  | n :: rest => by
    rw [List.flatMap_cons, sumSize_append]
    have h1 : sumSize n.children ≤ n.size := Nat.le_of_lt (sumSize_children_lt n)
    have h2 := sumSize_bind_children_le rest
    have : sumSize (n :: rest) = n.size + sumSize rest := by simp [sumSize]
    omega

theorem sumSize_cons_bind_lt (n : ASTNode) (rest : List ASTNode) :
    sumSize ((n :: rest).flatMap ASTNode.children) < sumSize (n :: rest) := by
  rw [List.flatMap_cons, sumSize_append]
  have h1 := sumSize_children_lt n
  have h2 := sumSize_bind_children_le rest
  have : sumSize (n :: rest) = n.size + sumSize rest := by simp [sumSize]
  omega

/-- Fuel-driven core of the breadth-first walk: one fuel unit per
level step.  The wrapper supplies more fuel than the total node count,
so the zero-fuel branch is never reached (`walkLevels_eq` below derives
the fuel-free recursion). -/
def walkAux : Nat → List ASTNode → List ASTNode
  | 0, _ => []
  | _ + 1, [] => []
  | fuel + 1, n :: rest =>
    (n :: rest) ++ walkAux fuel ((n :: rest).flatMap ASTNode.children)

/-- Model of `ast.walk`: breadth-first traversal from a work list.  The
Python generator pops a node from the left of a deque, yields it, and
extends the deque on the right with its children, which produces the
level-order sequence computed here. -/
def walkLevels (l : List ASTNode) : List ASTNode :=
  walkAux (sumSize l + 1) l

theorem walkAux_congr : ∀ (f1 f2 : Nat) (l : List ASTNode),
    sumSize l < f1 → sumSize l < f2 → walkAux f1 l = walkAux f2 l
  | 0, _, _, h1, _ => absurd h1 (Nat.not_lt_zero _)
  | _ + 1, 0, _, _, h2 => absurd h2 (Nat.not_lt_zero _)
  | _ + 1, _ + 1, [], _, _ => rfl
  | f1 + 1, f2 + 1, n :: rest, h1, h2 => by
    rw [walkAux, walkAux]
    have hlt := sumSize_cons_bind_lt n rest
    exact congrArg ((n :: rest) ++ ·)
      (walkAux_congr f1 f2 ((n :: rest).flatMap ASTNode.children)
        (by omega) (by omega))

/-- The breadth-first walk satisfies the level-order recursion. -/
theorem walkLevels_eq (l : List ASTNode) :
    walkLevels l = match l with
      | [] => []
      | n :: rest => (n :: rest) ++ walkLevels ((n :: rest).flatMap ASTNode.children) := by
  cases l with
  | nil => rfl
  | cons n rest =>
    show walkAux (sumSize (n :: rest) + 1) (n :: rest) = _
    rw [walkAux]
    have hlt := sumSize_cons_bind_lt n rest
    exact congrArg ((n :: rest) ++ ·)
      (walkAux_congr (sumSize (n :: rest)) (sumSize ((n :: rest).flatMap ASTNode.children) + 1)
        ((n :: rest).flatMap ASTNode.children) hlt (Nat.lt_succ_self _))

/-- Value of the `name` attribute of a definition node: the first field
of a `FunctionDef` or `ClassDef` node. -/
def ASTNode.defName : ASTNode → String
  | .mk _ (.leaf s :: _) => s
  | _ => ""

/-- Value of the `args` attribute: the second field of a `FunctionDef`
node (its `arguments` subtree). -/
def ASTNode.defArgs : ASTNode → ASTNode
  | .mk _ (_ :: .node a :: _) => a
  | _ => .mk "" []

/-- Value of the `body` attribute: the third field of a `FunctionDef`
node (its statement list). -/
def ASTNode.defBody : ASTNode → List ASTNode
  | .mk _ (_ :: _ :: .many b :: _) => b
  | _ => []

mutual
/-- Traversal of `ASTVisitor` restricted to its function-table writes:
the sequence of `self.functions[node.name] = node` assignments, in
visit order.  `visit_FunctionDef` records the node and then calls
`generic_visit`, which recurses into every child node; all other nodes
are handled by `generic_visit` alone. -/
def funEvents : ASTNode → List (String × ASTNode)
  | .mk t fs =>
    (if t = "FunctionDef" then [((ASTNode.mk t fs).defName, ASTNode.mk t fs)] else []) ++
      funEventsFields fs

def funEventsFields : List ASTField → List (String × ASTNode)
  | [] => []
  | f :: fs => funEventsField f ++ funEventsFields fs

def funEventsField : ASTField → List (String × ASTNode)
  | .leaf _ => []
  | .node n => funEvents n
  | .many ns => funEventsList ns

def funEventsList : List ASTNode → List (String × ASTNode)
  | [] => []
  | n :: ns => funEvents n ++ funEventsList ns
end

mutual
/-- Traversal of `ASTVisitor` restricted to its class-table writes:
the sequence of `self.classes[node.name] = node` assignments, in visit
order. -/
def classEvents : ASTNode → List (String × ASTNode)
  | .mk t fs =>
    (if t = "ClassDef" then [((ASTNode.mk t fs).defName, ASTNode.mk t fs)] else []) ++
      classEventsFields fs

def classEventsFields : List ASTField → List (String × ASTNode)
  | [] => []
  | f :: fs => classEventsField f ++ classEventsFields fs

def classEventsField : ASTField → List (String × ASTNode)
  | .leaf _ => []
  | .node n => classEvents n
  | .many ns => classEventsList ns

def classEventsList : List ASTNode → List (String × ASTNode)
  | [] => []
  | n :: ns => classEvents n ++ classEventsList ns
end

/-- Python-dict assignment `d[k] = v`: overwrite the live entry for `k`
in place if one exists, otherwise append a fresh entry. -/
def dictInsert {α : Type} : List (String × α) → String → α → List (String × α)
  | [], k, v => [(k, v)]
  | (k0, v0) :: rest, k, v =>
    if k0 = k then (k, v) :: rest else (k0, v0) :: dictInsert rest k v

/-- A dict built by performing a sequence of assignments in order on an
initially empty dict. -/
def buildDict {α : Type} (evs : List (String × α)) : List (String × α) :=
  evs.foldl (fun d e => dictInsert d e.1 e.2) []

/-- Python-dict lookup `d[k]`. -/
def dictLookup {α : Type} : List (String × α) → String → Option α
  | [], _ => none
  | (k0, v) :: rest, k => if k0 = k then some v else dictLookup rest k

def dictKeys {α : Type} (d : List (String × α)) : List String := d.map Prod.fst

/-- The `functions` table of `ASTVisitor` after visiting `t`. -/
def ASTVisitor.functions (t : ASTNode) : List (String × ASTNode) :=
  buildDict (funEvents t)

/-- The `classes` table of `ASTVisitor` after visiting `t`. -/
def ASTVisitor.classes (t : ASTNode) : List (String × ASTNode) :=
  buildDict (classEvents t)

/-- A deterministic enumeration of the key intersection
`set(old) & set(new)` driving the pairwise-comparison loops (Python
iterates the intersection in unspecified hash order; every claim below
is order-insensitive). -/
def commonKeys {α : Type} (old new : List (String × α)) : List String :=
  (dictKeys old).filter (fun k => (dictKeys new).contains k)

/-- The `ChangeType` pydantic model of `astTest.py`: three booleans,
all defaulting to `False`. -/
structure ChangeType where
  structural : Bool := false
  minor_edit : Bool := false
  rearrangement : Bool := false
deriving DecidableEq

/-- The `FunctionChange` pydantic model of `astTest.py`. -/
structure FunctionChange where
  name : String
  signature_change : Bool := false
  body_change : ChangeType := {}
  nested_function_change : Bool := false
deriving DecidableEq

/-- The `ClassMethodChange` pydantic model of `astTest.py`. -/
structure ClassMethodChange where
  class_name : String
  method_name : String
  signature_change : Bool := false
  body_change : ChangeType := {}
deriving DecidableEq

/-- The `ChangeAnalysis` pydantic model of `astTest.py`.  The
added/removed collections come from `list(set(...) - set(...))`, whose
order is unspecified; we keep the sets themselves. -/
structure ChangeAnalysis where
  added_functions : Finset String := ∅
  removed_functions : Finset String := ∅
  function_changes : List FunctionChange := []
  class_method_changes : List ClassMethodChange := []
deriving DecidableEq

namespace CodeChangeAnalyzer

/-- Model of `_has_signature_change`. -/
def _has_signature_change (old_func new_func : ASTNode) : Bool :=
  !(compare_ast_nodes old_func.defArgs new_func.defArgs)

/-- Model of `_analyze_body_change`: fingerprint the two statement
lists, then classify by sequence equality, distinct-fingerprint count,
and distinct-fingerprint set. -/
def _analyze_body_change (old_body new_body : List ASTNode) : ChangeType :=
  let old_hashes := old_body.map ASTHasher.visit
  let new_hashes := new_body.map ASTHasher.visit
  if old_hashes = new_hashes then {}
  else
    let old_set := old_hashes.toFinset
    let new_set := new_hashes.toFinset
    if old_set.card ≠ new_set.card then { structural := true }
    else if old_set ≠ new_set then { minor_edit := true }
    else { rearrangement := true }

/-- The set of names of `FunctionDef` nodes reachable from `f`
excluding `f` itself.  `ast.walk(f)` yields `f` first and then its
descendants; the Python code excludes `f` by object identity, which in
a tree removes exactly the root occurrence. -/
def nested_function_names (f : ASTNode) : Finset String :=
  (((walkLevels f.children).filter (fun n => n.tag == "FunctionDef")).map
    ASTNode.defName).toFinset

/-- Model of `_has_nested_function_change`. -/
def _has_nested_function_change (old_func new_func : ASTNode) : Bool :=
  decide (nested_function_names old_func ≠ nested_function_names new_func)

/-- Model of `_analyze_function_change` for a matched pair. -/
def _analyze_function_change (old_func new_func : ASTNode) (func_name : String) :
    FunctionChange :=
  { name := func_name
    signature_change := _has_signature_change old_func new_func
    body_change := _analyze_body_change old_func.defBody new_func.defBody
    nested_function_change := _has_nested_function_change old_func new_func }

/-- The method dict of a class: walk the class subtree and record every
`FunctionDef` under its name (dict comprehension, later duplicates
overwrite earlier ones). -/
def methodsDict (c : ASTNode) : List (String × ASTNode) :=
  buildDict (((walkLevels [c]).filter (fun n => n.tag == "FunctionDef")).map
    (fun n => (n.defName, n)))

/-- Model of `_analyze_class_method_changes`: for every shared class
name and every shared method name, compare signature and body, and keep
the record only when something changed. -/
def _analyze_class_method_changes (old_tree new_tree : ASTNode) : List ClassMethodChange :=
  let oldC := ASTVisitor.classes old_tree
  let newC := ASTVisitor.classes new_tree
  (commonKeys oldC newC).flatMap (fun class_name =>
    let old_class := (dictLookup oldC class_name).getD (.mk "" [])
    let new_class := (dictLookup newC class_name).getD (.mk "" [])
    let old_methods := methodsDict old_class
    let new_methods := methodsDict new_class
    (commonKeys old_methods new_methods).flatMap (fun method_name =>
      let om := (dictLookup old_methods method_name).getD (.mk "" [])
      let nm := (dictLookup new_methods method_name).getD (.mk "" [])
      let sig := _has_signature_change om nm
      let body := _analyze_body_change om.defBody nm.defBody
      if sig = true ∨ body ≠ ({} : ChangeType) then
        [{ class_name := class_name, method_name := method_name,
           signature_change := sig, body_change := body }]
      else []))

/-- The same double loop with the change filter removed: one record per
matched (class, method) pair.  Used to state which records the filter
keeps. -/
def all_method_records (old_tree new_tree : ASTNode) : List ClassMethodChange :=
  let oldC := ASTVisitor.classes old_tree
  let newC := ASTVisitor.classes new_tree
  (commonKeys oldC newC).flatMap (fun class_name =>
    let old_class := (dictLookup oldC class_name).getD (.mk "" [])
    let new_class := (dictLookup newC class_name).getD (.mk "" [])
    let old_methods := methodsDict old_class
    let new_methods := methodsDict new_class
    (commonKeys old_methods new_methods).map (fun method_name =>
      let om := (dictLookup old_methods method_name).getD (.mk "" [])
      let nm := (dictLookup new_methods method_name).getD (.mk "" [])
      { class_name := class_name, method_name := method_name,
        signature_change := _has_signature_change om nm,
        body_change := _analyze_body_change om.defBody nm.defBody }))

/-- Model of `analyze_changes` of `astTest.py`, taking the two parsed
trees (parsing is an external capability).  Note that the loop over
matched function names appends every record unconditionally; only the
class-method loop filters. -/
def analyze_changes (old_tree new_tree : ASTNode) : ChangeAnalysis :=
  let oldF := ASTVisitor.functions old_tree
  let newF := ASTVisitor.functions new_tree
  { added_functions := (dictKeys newF).toFinset \ (dictKeys oldF).toFinset
    removed_functions := (dictKeys oldF).toFinset \ (dictKeys newF).toFinset
    function_changes := (commonKeys oldF newF).map (fun func_name =>
      _analyze_function_change
        ((dictLookup oldF func_name).getD (.mk "" []))
        ((dictLookup newF func_name).getD (.mk "" []))
        func_name)
    class_method_changes := _analyze_class_method_changes old_tree new_tree }

end CodeChangeAnalyzer

section ConcreteNodes

/-- Builders for concrete Python AST nodes, with the field lists laid
out the way `ast._fields` orders them. -/
def nLoad : ASTNode := .mk "Load" []

def nStore : ASTNode := .mk "Store" []

/-- A `Name` node: fields `(id, ctx)`. -/
def nName (s : String) (ctx : ASTNode) : ASTNode := .mk "Name" [.leaf s, .node ctx]

/-- A `Constant` node: fields `(value, kind)`, both scalar leaves. -/
def nConstant (v : String) : ASTNode := .mk "Constant" [.leaf v, .leaf "None"]

def nPass : ASTNode := .mk "Pass" []

/-- An `arg` node: fields `(arg, annotation, type_comment)`. -/
def nArg (s : String) : ASTNode := .mk "arg" [.leaf s, .leaf "None", .leaf "None"]

/-- An `arguments` node: fields `(posonlyargs, args, vararg, kwonlyargs,
kw_defaults, kwarg, defaults)`. -/
def nArguments (args : List ASTNode) (defaults : List ASTNode) : ASTNode :=
  .mk "arguments" [.many [], .many args, .leaf "None", .many [], .many [],
    .leaf "None", .many defaults]

/-- A `FunctionDef` node: fields `(name, args, body, decorator_list,
returns, type_comment)`. -/
def nFunctionDef (name : String) (args : ASTNode) (body : List ASTNode) : ASTNode :=
  .mk "FunctionDef" [.leaf name, .node args, .many body, .many [], .leaf "None", .leaf "None"]

/-- A `ClassDef` node: fields `(name, bases, keywords, body,
decorator_list)`. -/
def nClassDef (name : String) (body : List ASTNode) : ASTNode :=
  .mk "ClassDef" [.leaf name, .many [], .many [], .many body, .many []]

/-- A `Module` node: fields `(body, type_ignores)`. -/
def nModule (body : List ASTNode) : ASTNode := .mk "Module" [.many body, .many []]

/-- An `Expr` statement node: field `(value)`. -/
def nExpr (e : ASTNode) : ASTNode := .mk "Expr" [.node e]

/-- A `Call` node: fields `(func, args, keywords)`. -/
def nCall (f : ASTNode) (args : List ASTNode) : ASTNode :=
  .mk "Call" [.node f, .many args, .many []]

/-- An `Attribute` node: fields `(value, attr, ctx)`. -/
def nAttribute (v : ASTNode) (attr : String) (ctx : ASTNode) : ASTNode :=
  .mk "Attribute" [.node v, .leaf attr, .node ctx]

/-- An `Assign` node: fields `(targets, value, type_comment)`. -/
def nAssign (targets : List ASTNode) (value : ASTNode) : ASTNode :=
  .mk "Assign" [.many targets, .node value, .leaf "None"]

/-- A `For` node: fields `(target, iter, body, orelse, type_comment)`. -/
def nFor (target iter : ASTNode) (body orelse : List ASTNode) : ASTNode :=
  .mk "For" [.node target, .node iter, .many body, .many orelse, .leaf "None"]

/-- A `While` node: fields `(test, body, orelse)`. -/
def nWhile (test : ASTNode) (body orelse : List ASTNode) : ASTNode :=
  .mk "While" [.node test, .many body, .many orelse]

/-- An `If` node: fields `(test, body, orelse)`. -/
def nIf (test : ASTNode) (body orelse : List ASTNode) : ASTNode :=
  .mk "If" [.node test, .many body, .many orelse]

/-- A `Compare` node: fields `(left, ops, comparators)`. -/
def nCompare (left : ASTNode) (ops comps : List ASTNode) : ASTNode :=
  .mk "Compare" [.node left, .many ops, .many comps]

/-- The statement `print(item)`. -/
def stmtPrintItem : ASTNode := nExpr (nCall (nName "print" nLoad) [nName "item" nLoad])

/-- The statement `for item in data: print(item)`. -/
def stmtFor : ASTNode := nFor (nName "item" nStore) (nName "data" nLoad) [stmtPrintItem] []

/-- The statement `item = data.pop()`. -/
def stmtAssignPop : ASTNode :=
  nAssign [nName "item" nStore] (nCall (nAttribute (nName "data" nLoad) "pop" nLoad) [])

/-- The statement `while data:` with body `item = data.pop()` and
`print(item)`. -/
def stmtWhile : ASTNode := nWhile (nName "data" nLoad) [stmtAssignPop, stmtPrintItem] []

/-- The statement `x = 1`. -/
def stmtXeq1 : ASTNode := nAssign [nName "x" nStore] (nConstant "1")

/-- The statement `y = 2`. -/
def stmtYeq2 : ASTNode := nAssign [nName "y" nStore] (nConstant "2")

/-- The statement `print(x)`. -/
def stmtPrintX : ASTNode := nExpr (nCall (nName "print" nLoad) [nName "x" nLoad])

/-- The statement `if x: print(x)`. -/
def stmtIfPrintX : ASTNode := nIf (nName "x" nLoad) [stmtPrintX] []

/-- The statement `a is b not in c`: a chained comparison with operator
list `[Is, NotIn]`. -/
def stmtChainA : ASTNode :=
  nExpr (nCompare (nName "a" nLoad) [.mk "Is" [], .mk "NotIn" []]
    [nName "b" nLoad, nName "c" nLoad])

/-- The statement `a is not b in c`: a chained comparison with operator
list `[IsNot, In]`. -/
def stmtChainB : ASTNode :=
  nExpr (nCompare (nName "a" nLoad) [.mk "IsNot" [], .mk "In" []]
    [nName "b" nLoad, nName "c" nLoad])

/-- A top-level `def foo(): pass`. -/
def fooTop : ASTNode := nFunctionDef "foo" (nArguments [] []) [nPass]

/-- A method `def foo(self): pass` of some class. -/
def fooMethod : ASTNode := nFunctionDef "foo" (nArguments [nArg "self"] []) [nPass]

/-- The module `def foo(): pass` followed by `class C:` with method
`def foo(self): pass`: the same name defined in two different scopes. -/
def moduleTwoScopes : ASTNode := nModule [fooTop, nClassDef "C" [fooMethod]]

/-- The module consisting of the single definition `def f(): pass`. -/
def moduleOneFun : ASTNode := nModule [nFunctionDef "f" (nArguments [] []) [nPass]]

/-- The module consisting of the single definition `def g(): pass`. -/
def moduleOneFunG : ASTNode := nModule [nFunctionDef "g" (nArguments [] []) [nPass]]

/-- The definition `def greet(name=1): pass`. -/
def greetDefault1 : ASTNode :=
  nFunctionDef "greet" (nArguments [nArg "name"] [nConstant "1"]) [nPass]

/-- The definition `def greet(name=2): pass`: only the default value of
the parameter differs from `greetDefault1`. -/
def greetDefault2 : ASTNode :=
  nFunctionDef "greet" (nArguments [nArg "name"] [nConstant "2"]) [nPass]

/-- The `ast.unparse` line list of the old `process_data` definition. -/
def pdOldLines : List String :=
  ["def process_data(data):", "    for item in data:", "        print(item)"]

/-- The `ast.unparse` line list of the new `process_data` definition. -/
def pdNewLines : List String :=
  ["def process_data(data):", "    while data:", "        item = data.pop()",
   "        print(item)"]

end ConcreteNodes

/-- Whitespace characters stripped by Python `str.strip()` (the ASCII
ones; the lines handled here are ASCII). -/
def isPyWS (c : Char) : Bool :=
  c = ' ' || c = '\t' || c = '\n' || c = '\r' || c = '\x0b' || c = '\x0c'

/-- Model of Python `str.strip()`. -/
def pyStrip (s : String) : String :=
  ⟨((s.toList.dropWhile isPyWS).reverse.dropWhile isPyWS).reverse⟩

/-- Model of Python `str.startswith(pre)`. -/
def pyStartsWith (s pre : String) : Bool :=
  pre.toList.isPrefixOf s.toList

def containsSubAux (pat : List Char) : List Char → Bool
  | [] => pat.isEmpty
  | c :: rest => pat.isPrefixOf (c :: rest) || containsSubAux pat rest

/-- Model of Python substring containment `pat in s`. -/
def containsSub (s pat : String) : Bool :=
  containsSubAux pat.toList s.toList

theorem containsSubAux_iff_infix (pat : List Char) :
    ∀ l : List Char, containsSubAux pat l = true ↔ pat <:+: l
  | [] => by
    rw [containsSubAux, List.infix_nil]
    simp [List.isEmpty_iff]
  | c :: rest => by
    rw [containsSubAux, Bool.or_eq_true, containsSubAux_iff_infix pat rest,
      List.isPrefixOf_iff_prefix, List.infix_cons_iff]

/-- Substring containment is monotone: when `q` occurs inside `p`,
every string containing `p` also contains `q` (so, for instance, every
line containing `elif` contains `if`). -/
theorem containsSub_mono (s p q : String) (hpq : q.toList <:+: p.toList)
    (h : containsSub s p = true) : containsSub s q = true := by
  rw [containsSub, containsSubAux_iff_infix] at h ⊢
  exact hpq.trans h

namespace Ast2

/-- The `ChangeType` pydantic model of `ast2.py`: a category tag, a
human-readable description, and a numeric priority. -/
structure ChangeType where
  type : String
  description : String
  priority : Nat
deriving DecidableEq

/-- The `FunctionChange` pydantic model of `ast2.py`. -/
structure FunctionChange where
  name : String
  signature_change : Option ChangeType := none
  body_changes : List ChangeType := []
  nested_function_change : Option ChangeType := none
deriving DecidableEq

/-- The `ClassMethodChange` pydantic model of `ast2.py`. -/
structure ClassMethodChange where
  class_name : String
  method_name : String
  signature_change : Option ChangeType := none
  body_changes : List ChangeType := []
deriving DecidableEq

/-- The `ChangeAnalysis` pydantic model of `ast2.py`. -/
structure ChangeAnalysis where
  added_functions : Finset String := ∅
  removed_functions : Finset String := ∅
  changed_functions : List FunctionChange := []
  changed_class_methods : List ClassMethodChange := []
deriving DecidableEq

/-- Model of `_categorize_change` of `ast2.py`: the ordered first-match
rule chain over the trimmed line text. -/
def _categorize_change (line : String) : ChangeType :=
  let stripped_line := pyStrip line
  if pyStartsWith stripped_line "#" then
    ⟨"minor", "Comment changed", 1⟩
  else if pyStartsWith stripped_line "import " || pyStartsWith stripped_line "from " then
    ⟨"significant", "Import statement changed", 7⟩
  else if stripped_line = "" then
    ⟨"minor", "Whitespace change", 1⟩
  else if containsSub stripped_line "=" &&
      !(["if", "for", "while", "def", "class"].any (fun kw => containsSub stripped_line kw)) then
    ⟨"minor", "Variable assignment changed", 3⟩
  else if ["if", "else", "elif", "for", "while", "try", "except", "with"].any
      (fun kw => containsSub stripped_line kw) then
    ⟨"major", "Control flow changed", 9⟩
  else if pyStartsWith stripped_line "def " || pyStartsWith stripped_line "class " then
    ⟨"major", "Function or class definition changed", 10⟩
  else
    ⟨"significant", "Code logic changed", 5⟩

/-- Fuel-driven longest-common-subsequence length: one fuel unit per
step, with more fuel supplied than the two lengths combined, so the
zero branch is never reached. -/
def lcsLenAux : Nat → List String → List String → Nat
  | 0, _, _ => 0
  | _ + 1, [], _ => 0
  | _ + 1, _ :: _, [] => 0
  | fuel + 1, x :: xs, y :: ys =>
    if x = y then 1 + lcsLenAux fuel xs ys
    else max (lcsLenAux fuel (x :: xs) ys) (lcsLenAux fuel xs (y :: ys))

def lcsLen (a b : List String) : Nat :=
  lcsLenAux (a.length + b.length + 1) a b

/-- Fuel-driven core of the line diff. -/
def diffChangedAux : Nat → List String → List String → List String
  | 0, _, _ => []
  | _ + 1, [], ys => ys
  | fuel + 1, x :: xs, [] => x :: diffChangedAux fuel xs []
  | fuel + 1, x :: xs, y :: ys =>
    if x = y then diffChangedAux fuel xs ys
    else if lcsLen (x :: xs) ys ≤ lcsLen xs (y :: ys) then
      x :: diffChangedAux fuel xs (y :: ys)
    else y :: diffChangedAux fuel (x :: xs) ys

/-- Modelled from the spec: `difflib.unified_diff(old, new, n=0)` is a
standard line-based diff; `ast2.py` keeps only the lines starting with
a `+` or `-` marker and strips the marker.  We embed the diff as the
classic longest-common-subsequence line diff and return the payload of
the removed and added lines, in diff order.  The scorer treats removed
and added lines identically, so the marker is not kept. -/
def diffChangedLines (a b : List String) : List String :=
  diffChangedAux (a.length + b.length + 1) a b

/-- Model of `_analyze_body_changes` of `ast2.py`, applied to the
`ast.unparse` line lists of the two definitions (unparsing is an
external capability, so the caller supplies the two line lists):
categorize every changed line of the diff, in order. -/
def _analyze_body_changes (old_lines new_lines : List String) : List ChangeType :=
  (diffChangedLines old_lines new_lines).map _categorize_change

/-- Model of `_analyze_signature_change` of `ast2.py`: `ast.dump`
renders the full subtree including leaf values and is injective on
trees, so dump-string inequality is tree inequality. -/
def _analyze_signature_change (old_func new_func : ASTNode) : Option ChangeType :=
  if old_func.defArgs ≠ new_func.defArgs then
    some ⟨"significant", "Function signature changed", 8⟩
  else none

/-- Model of `_has_significant_changes` of `ast2.py` (the code after
its `return` statement is unreachable). -/
def _has_significant_changes (change : FunctionChange) : Bool :=
  change.signature_change.isSome || change.body_changes.length > 0 ||
    change.nested_function_change.isSome

/-- Model of `_analyze_class_method_changes` of `ast2.py`.  `unparse`
is the external `ast.unparse` capability producing the line list of a
definition. -/
def _analyze_class_method_changes (unparse : ASTNode → List String)
    (old_tree new_tree : ASTNode) : List ClassMethodChange :=
  let oldC := ASTVisitor.classes old_tree
  let newC := ASTVisitor.classes new_tree
  (commonKeys oldC newC).flatMap (fun class_name =>
    let old_class := (dictLookup oldC class_name).getD (.mk "" [])
    let new_class := (dictLookup newC class_name).getD (.mk "" [])
    let old_methods := CodeChangeAnalyzer.methodsDict old_class
    let new_methods := CodeChangeAnalyzer.methodsDict new_class
    (commonKeys old_methods new_methods).flatMap (fun method_name =>
      let om := (dictLookup old_methods method_name).getD (.mk "" [])
      let nm := (dictLookup new_methods method_name).getD (.mk "" [])
      let sig := _analyze_signature_change om nm
      let body_changes := _analyze_body_changes (unparse om) (unparse nm)
      if sig.isSome = true ∨ body_changes ≠ [] then
        [{ class_name := class_name, method_name := method_name,
           signature_change := sig, body_changes := body_changes }]
      else []))

/-- Model of `analyze_changes` of `ast2.py`.  The loop over matched
function names invokes `self._analyze_function_change`, a method that
is defined nowhere in `ast2.py`, so the first iteration raises
`AttributeError`; we model the raised exception with `Except.error`.
When no function name is shared the loop body never runs and the
report is returned. -/
def analyze_changes (unparse : ASTNode → List String) (old_tree new_tree : ASTNode) :
    Except String ChangeAnalysis :=
  let oldF := ASTVisitor.functions old_tree
  let newF := ASTVisitor.functions new_tree
  if commonKeys oldF newF ≠ [] then
    .error "AttributeError: CodeChangeAnalyzer object has no attribute _analyze_function_change"
  else
    .ok { added_functions := (dictKeys newF).toFinset \ (dictKeys oldF).toFinset
          removed_functions := (dictKeys oldF).toFinset \ (dictKeys newF).toFinset
          changed_functions := []
          changed_class_methods := _analyze_class_method_changes unparse old_tree new_tree }

end Ast2

theorem dictLookup_dictInsert {α : Type} (d : List (String × α)) (k k' : String) (v : α) :
    dictLookup (dictInsert d k v) k' = if k = k' then some v else dictLookup d k' := by
  induction d with
  | nil => simp [dictInsert, dictLookup]
  | cons e rest ih =>
    obtain ⟨k0, v0⟩ := e
    by_cases h : k0 = k
    · subst h
      simp only [dictInsert, if_pos rfl, dictLookup]
      by_cases h' : k0 = k'
      · simp [h']
      · simp [h', dictLookup]
    · simp only [dictInsert, if_neg h, dictLookup]
      by_cases h' : k0 = k'
      · have : ¬ k = k' := fun he => h (he ▸ h')
        simp [h', this]
      · simp [h', ih]

theorem mem_keys_dictInsert {α : Type} (d : List (String × α)) (k k' : String) (v : α) :
    k' ∈ dictKeys (dictInsert d k v) ↔ k' ∈ dictKeys d ∨ k' = k := by
  induction d with
  | nil => simp [dictInsert, dictKeys]
  | cons e rest ih =>
    obtain ⟨k0, v0⟩ := e
    by_cases h : k0 = k
    · subst h
      simp [dictInsert, dictKeys]
      tauto
    · simp [dictInsert, h, dictKeys] at ih ⊢
      tauto

theorem keys_dictInsert_nodup {α : Type} (d : List (String × α)) (k : String) (v : α)
    (h : (dictKeys d).Nodup) : (dictKeys (dictInsert d k v)).Nodup := by
  induction d with
  | nil => simp [dictInsert, dictKeys]
  | cons e rest ih =>
    obtain ⟨k0, v0⟩ := e
    simp only [dictKeys, List.map_cons, List.nodup_cons] at h
    by_cases hk : k0 = k
    · subst hk
      simpa [dictInsert, dictKeys, List.nodup_cons] using h
    · simp only [dictInsert, if_neg hk, dictKeys, List.map_cons, List.nodup_cons]
      refine ⟨fun hm => ?_, ih h.2⟩
      rcases (mem_keys_dictInsert rest k k0 v).mp hm with hm' | hm'
      · exact h.1 hm'
      · exact hk hm'

theorem getLast?_cons_isSome {α : Type} : ∀ (x : α) (xs : List α), ∃ y, (x :: xs).getLast? = some y
  | x, [] => ⟨x, rfl⟩
  | _, y :: ys => by
    obtain ⟨z, hz⟩ := getLast?_cons_isSome y ys
    exact ⟨z, by rw [List.getLast?_cons_cons, hz]⟩

theorem dictLookup_foldl {α : Type} :
    ∀ (evs : List (String × α)) (d : List (String × α)) (k : String),
    dictLookup (evs.foldl (fun d e => dictInsert d e.1 e.2) d) k =
      match (evs.filter (fun e => e.1 == k)).getLast? with
      | some e => some e.2
      | none => dictLookup d k
  | [], d, k => by simp [List.foldl]
  | e :: evs, d, k => by
    rw [List.foldl_cons, dictLookup_foldl evs (dictInsert d e.1 e.2) k]
    by_cases hk : e.1 = k
    · have hfil : (e :: evs).filter (fun e => e.1 == k) =
          e :: evs.filter (fun e => e.1 == k) := by
        simp [List.filter_cons, hk]
      rw [hfil]
      cases hev : evs.filter (fun e => e.1 == k) with
      | nil => simp [dictLookup_dictInsert, hk]
      | cons x xs =>
        rw [List.getLast?_cons_cons]
        obtain ⟨y, hy⟩ := getLast?_cons_isSome x xs
        rw [hy]
    · have hfil : (e :: evs).filter (fun e => e.1 == k) =
          evs.filter (fun e => e.1 == k) := by
        simp [List.filter_cons, hk]
      rw [hfil]
      cases hev : evs.filter (fun e => e.1 == k) with
      | nil => simp [dictLookup_dictInsert, hk]
      | cons x xs =>
        obtain ⟨y, hy⟩ := getLast?_cons_isSome x xs
        rw [hy]

theorem keys_buildDict_nodup {α : Type} (evs : List (String × α)) :
    (dictKeys (buildDict evs)).Nodup := by
  have general : ∀ (l : List (String × α)) (d : List (String × α)),
      (dictKeys d).Nodup → (dictKeys (l.foldl (fun d e => dictInsert d e.1 e.2) d)).Nodup := by
    intro l
    induction l with
    | nil => intro d h; simpa using h
    | cons e rest ih =>
      intro d h
      exact ih (dictInsert d e.1 e.2) (keys_dictInsert_nodup d e.1 e.2 h)
  exact general evs [] (by simp [dictKeys])

theorem dictLookup_buildDict {α : Type} (evs : List (String × α)) (k : String) :
    dictLookup (buildDict evs) k =
      ((evs.filter (fun e => e.1 == k)).getLast?).map Prod.snd := by
  rw [buildDict, dictLookup_foldl]
  cases (evs.filter (fun e => e.1 == k)).getLast? with
  | none => simp [dictLookup]
  | some e => simp

theorem flatMap_nil_of {α β : Type} (l : List α) (f : α → List β)
    (h : ∀ x ∈ l, f x = []) : l.flatMap f = [] := by
  induction l with
  | nil => rfl
  | cons x xs ih =>
    rw [List.flatMap_cons, h x (List.mem_cons_self x xs), List.nil_append]
    exact ih (fun y hy => h y (List.mem_cons_of_mem x hy))

theorem flatMap_filter_comm {α β : Type} (l : List α) (f : α → List β) (q : β → Bool) :
    (l.flatMap f).filter q = l.flatMap (fun x => (f x).filter q) := by
  induction l with
  | nil => rfl
  | cons x xs ih =>
    rw [List.flatMap_cons, List.flatMap_cons, List.filter_append, ih]

theorem flatMap_congr_fun {α β : Type} (l : List α) (f g : α → List β)
    (h : ∀ x ∈ l, f x = g x) : l.flatMap f = l.flatMap g := by
  induction l with
  | nil => rfl
  | cons x xs ih =>
    rw [List.flatMap_cons, List.flatMap_cons, h x (List.mem_cons_self x xs),
      ih (fun y hy => h y (List.mem_cons_of_mem x hy))]

namespace CodeChangeAnalyzer

theorem _has_signature_change_self (f : ASTNode) : _has_signature_change f f = false := by
  simp [_has_signature_change, compare_ast_nodes_refl]

theorem _analyze_body_change_self (b : List ASTNode) : _analyze_body_change b b = {} := by
  simp [_analyze_body_change]

theorem _has_nested_function_change_self (f : ASTNode) :
    _has_nested_function_change f f = false := by
  simp [_has_nested_function_change]

theorem inner_method_loop_eq (oldM newM : List (String × ASTNode)) (cname : String) :
    ∀ l : List String,
    (l.flatMap (fun method_name =>
      let om := (dictLookup oldM method_name).getD (.mk "" [])
      let nm := (dictLookup newM method_name).getD (.mk "" [])
      let sig := _has_signature_change om nm
      let body := _analyze_body_change om.defBody nm.defBody
      if sig = true ∨ body ≠ ({} : ChangeType) then
        [{ class_name := cname, method_name := method_name,
           signature_change := sig, body_change := body }]
      else [])) =
    (l.map (fun method_name =>
      let om := (dictLookup oldM method_name).getD (.mk "" [])
      let nm := (dictLookup newM method_name).getD (.mk "" [])
      ({ class_name := cname, method_name := method_name,
         signature_change := _has_signature_change om nm,
         body_change := _analyze_body_change om.defBody nm.defBody } : ClassMethodChange))).filter
      (fun r => decide (r.signature_change = true ∨ r.body_change ≠ ({} : ChangeType)))
  | [] => rfl
  | m :: ms => by
    rw [List.flatMap_cons, List.map_cons, List.filter_cons,
      inner_method_loop_eq oldM newM cname ms]
    dsimp only
    by_cases h : _has_signature_change ((dictLookup oldM m).getD (.mk "" []))
        ((dictLookup newM m).getD (.mk "" [])) = true ∨
        _analyze_body_change ((dictLookup oldM m).getD (.mk "" [])).defBody
          ((dictLookup newM m).getD (.mk "" [])).defBody ≠ ({} : ChangeType)
    · simp [h]
    · simp [h]

/-- The class-method loop equals the unfiltered record list filtered by
the inclusion condition `signature_change or body_change != ChangeType()`. -/
theorem changed_methods_eq_filter (old_tree new_tree : ASTNode) :
    _analyze_class_method_changes old_tree new_tree =
      (all_method_records old_tree new_tree).filter
        (fun r => decide (r.signature_change = true ∨ r.body_change ≠ ({} : ChangeType))) := by
  unfold _analyze_class_method_changes all_method_records
  dsimp only
  rw [flatMap_filter_comm]
  exact flatMap_congr_fun _ _ _ (fun class_name _ =>
    inner_method_loop_eq _ _ class_name _)

end CodeChangeAnalyzer





/--
Claim C1, counterexample.  The claim says a matched definition pair
appears in the changed-functions list only if some change flag is set,
and that a pair with no detected change is omitted.  In `astTest.py`
the loop over matched function names appends every record
unconditionally: comparing the module `def f(): pass` with itself
produces a `function_changes` entry for `f` whose flags are all
false/unchanged.
-/
theorem claim_C1_counterexample :
    (CodeChangeAnalyzer.analyze_changes moduleOneFun moduleOneFun).function_changes =
      [{ name := "f", signature_change := false, body_change := {},
         nested_function_change := false }] := by decide

/--
Claim C1, amended.  A matched method pair appears in the
changed-methods list iff its signature-change flag is set or its body
severity is not unchanged (method records carry no nested-definition
flag); matched function pairs are appended unconditionally, one record
per common name, whether or not anything changed.
-/
theorem claim_C1_amended (old_tree new_tree : ASTNode) (r : ClassMethodChange) :
    (r ∈ (CodeChangeAnalyzer.analyze_changes old_tree new_tree).class_method_changes ↔
      (r ∈ CodeChangeAnalyzer.all_method_records old_tree new_tree ∧
        (r.signature_change = true ∨ r.body_change ≠ ({} : ChangeType)))) ∧
    (CodeChangeAnalyzer.analyze_changes old_tree new_tree).function_changes =
      (commonKeys (ASTVisitor.functions old_tree) (ASTVisitor.functions new_tree)).map
        (fun func_name => CodeChangeAnalyzer._analyze_function_change
          ((dictLookup (ASTVisitor.functions old_tree) func_name).getD (.mk "" []))
          ((dictLookup (ASTVisitor.functions new_tree) func_name).getD (.mk "" []))
          func_name) := by
  constructor
  · have hcm : (CodeChangeAnalyzer.analyze_changes old_tree new_tree).class_method_changes =
        CodeChangeAnalyzer._analyze_class_method_changes old_tree new_tree := rfl
    rw [hcm, CodeChangeAnalyzer.changed_methods_eq_filter, List.mem_filter,
      decide_eq_true_iff]
  · rfl

/--
Claim C2.  In the `ast2.py` variant, whenever the two symbol tables
share a function name, `analyze_changes` raises instead of returning a
report: the loop body invokes `self._analyze_function_change`, which is
defined nowhere in that file, so the first iteration raises
`AttributeError`.  The theorem holds for every unparse capability.
-/
theorem claim_C2 (unparse : ASTNode → List String) (old_tree new_tree : ASTNode)
    (h : ∃ nm, nm ∈ dictKeys (ASTVisitor.functions old_tree) ∧
      nm ∈ dictKeys (ASTVisitor.functions new_tree)) :
    Ast2.analyze_changes unparse old_tree new_tree =
      .error "AttributeError: CodeChangeAnalyzer object has no attribute _analyze_function_change" := by
  obtain ⟨nm, h1, h2⟩ := h
  have hmem : nm ∈ commonKeys (ASTVisitor.functions old_tree) (ASTVisitor.functions new_tree) := by
    apply List.mem_filter.mpr
    refine ⟨h1, ?_⟩
    simpa using h2
  have hne : commonKeys (ASTVisitor.functions old_tree) (ASTVisitor.functions new_tree) ≠ [] := by
    intro hnil
    rw [hnil] at hmem
    exact absurd hmem (List.not_mem_nil nm)
  simp [Ast2.analyze_changes, hne]

/--
Claim C2, witness: the module `def f(): pass` compared with itself
shares the function name `f`, and the `analyze_changes` of `ast2.py`
errors on it.
-/
theorem claim_C2_witness :
    (∃ nm, nm ∈ dictKeys (ASTVisitor.functions moduleOneFun) ∧
      nm ∈ dictKeys (ASTVisitor.functions moduleOneFun)) ∧
    Ast2.analyze_changes (fun _ => []) moduleOneFun moduleOneFun =
      .error "AttributeError: CodeChangeAnalyzer object has no attribute _analyze_function_change" :=
  ⟨⟨"f", by decide, by decide⟩,
    claim_C2 (fun _ => []) moduleOneFun moduleOneFun ⟨"f", by decide, by decide⟩⟩

/--
Claim C3.  Body-change severity: unchanged when the ordered fingerprint
sequences are equal; otherwise structural when the numbers of distinct
fingerprints differ; otherwise minor_edit when the sets of distinct
fingerprints differ; otherwise rearrangement.
-/
theorem claim_C3 (old_body new_body : List ASTNode) :
    CodeChangeAnalyzer._analyze_body_change old_body new_body =
      if old_body.map ASTHasher.visit = new_body.map ASTHasher.visit then {}
      else if (old_body.map ASTHasher.visit).dedup.length ≠
          (new_body.map ASTHasher.visit).dedup.length then { structural := true }
      else if ¬ ((∀ h ∈ old_body.map ASTHasher.visit, h ∈ new_body.map ASTHasher.visit) ∧
          (∀ h ∈ new_body.map ASTHasher.visit, h ∈ old_body.map ASTHasher.visit)) then
        { minor_edit := true }
      else { rearrangement := true } := by
  unfold CodeChangeAnalyzer._analyze_body_change
  by_cases h1 : old_body.map ASTHasher.visit = new_body.map ASTHasher.visit
  · rw [if_pos h1, if_pos h1]
  · rw [if_neg h1, if_neg h1]
    have hcard : ((old_body.map ASTHasher.visit).toFinset.card ≠
        (new_body.map ASTHasher.visit).toFinset.card) ↔
        ((old_body.map ASTHasher.visit).dedup.length ≠
          (new_body.map ASTHasher.visit).dedup.length) := by
      rw [List.card_toFinset, List.card_toFinset]
    by_cases h2 : (old_body.map ASTHasher.visit).toFinset.card ≠
        (new_body.map ASTHasher.visit).toFinset.card
    · rw [if_pos h2, if_pos (hcard.mp h2)]
    · rw [if_neg h2, if_neg (fun hx => h2 (hcard.mpr hx))]
      have hset : ((old_body.map ASTHasher.visit).toFinset =
          (new_body.map ASTHasher.visit).toFinset) ↔
          ((∀ h ∈ old_body.map ASTHasher.visit, h ∈ new_body.map ASTHasher.visit) ∧
            (∀ h ∈ new_body.map ASTHasher.visit, h ∈ old_body.map ASTHasher.visit)) := by
        constructor
        · intro he
          constructor
          · intro x hx
            exact List.mem_toFinset.mp (he ▸ List.mem_toFinset.mpr hx)
          · intro x hx
            exact List.mem_toFinset.mp (he ▸ List.mem_toFinset.mpr hx)
        · rintro ⟨hab, hba⟩
          ext x
          simp only [List.mem_toFinset]
          exact ⟨fun hx => hab x hx, fun hx => hba x hx⟩
      by_cases h3 : (old_body.map ASTHasher.visit).toFinset =
          (new_body.map ASTHasher.visit).toFinset
      · rw [if_neg (fun hne => hne h3), if_neg (fun hc => hc (hset.mp h3))]
      · rw [if_pos h3, if_pos (fun hc => h3 (hset.mpr hc))]

/--
Claim C4, counterexample.  For the `process_data` scenario (old body
`for item in data: print(item)`, new body `while data: item =
data.pop(); print(item)`) the claim expects body severity structural.
Both bodies consist of exactly one top-level statement, so the two
fingerprint multisets have the same number of distinct fingerprints
and the classifier returns minor_edit, not structural.
-/
theorem claim_C4_counterexample :
    CodeChangeAnalyzer._analyze_body_change [stmtFor] [stmtWhile] =
      { minor_edit := true } ∧
    (CodeChangeAnalyzer._analyze_body_change [stmtFor] [stmtWhile]).structural = false :=
  ⟨by decide, by decide⟩

/--
Claim C4, amended.  For the `process_data` scenario the fingerprint-set
method classifies the body severity as minor_edit (the top-level
statement count is one on each side, so only the fingerprint sets
differ), and the line scorer emits at least one major-priority record
for the control-flow keyword change.
-/
theorem claim_C4_amended :
    CodeChangeAnalyzer._analyze_body_change [stmtFor] [stmtWhile] =
      { minor_edit := true } ∧
    (∃ c ∈ Ast2._analyze_body_changes pdOldLines pdNewLines,
      c.type = "major" ∧ c.priority = 9) :=
  ⟨by decide, by decide⟩

/--
Claim C5, counterexample.  The claim says analyzing any parseable input
against itself yields an empty changed-functions list.  In `astTest.py`
every matched function pair is appended unconditionally, so comparing
the module `def g(): pass` with itself produces a one-element
changed-functions list (with every flag false).
-/
theorem claim_C5_counterexample :
    (CodeChangeAnalyzer.analyze_changes moduleOneFunG moduleOneFunG).function_changes =
      [{ name := "g", signature_change := false, body_change := {},
         nested_function_change := false }] ∧
    (CodeChangeAnalyzer.analyze_changes moduleOneFunG moduleOneFunG).function_changes ≠ [] :=
  ⟨by decide, by decide⟩

/--
Claim C5, amended.  Comparing any tree with itself yields empty added
and removed sets and an empty changed-methods list, and every record of
the changed-functions list (one per matched function, appended
unconditionally) reports no change: signature flag false, body severity
unchanged, nested flag false.
-/
theorem claim_C5_amended (X : ASTNode) :
    (CodeChangeAnalyzer.analyze_changes X X).added_functions = ∅ ∧
    (CodeChangeAnalyzer.analyze_changes X X).removed_functions = ∅ ∧
    (CodeChangeAnalyzer.analyze_changes X X).class_method_changes = [] ∧
    ∀ fc ∈ (CodeChangeAnalyzer.analyze_changes X X).function_changes,
      fc.signature_change = false ∧ fc.body_change = ({} : ChangeType) ∧
        fc.nested_function_change = false := by
  refine ⟨Finset.sdiff_self _, Finset.sdiff_self _, ?_, ?_⟩
  · show CodeChangeAnalyzer._analyze_class_method_changes X X = []
    unfold CodeChangeAnalyzer._analyze_class_method_changes
    dsimp only
    apply flatMap_nil_of
    intro cname _
    apply flatMap_nil_of
    intro mname _
    rw [if_neg]
    rintro (h | h)
    · rw [CodeChangeAnalyzer._has_signature_change_self] at h
      exact absurd h (by simp)
    · exact h (CodeChangeAnalyzer._analyze_body_change_self _)
  · intro fc hfc
    obtain ⟨nm, _, hmap⟩ := List.mem_map.mp hfc
    rw [← hmap]
    exact ⟨CodeChangeAnalyzer._has_signature_change_self _,
      CodeChangeAnalyzer._analyze_body_change_self _,
      CodeChangeAnalyzer._has_nested_function_change_self _⟩

/--
Claim C5, witness: for the module `def g(): pass` compared with itself,
the one record of the changed-functions list carries no change flags.
-/
theorem claim_C5_witness :
    ({ name := "g" } : FunctionChange) ∈
      (CodeChangeAnalyzer.analyze_changes moduleOneFunG moduleOneFunG).function_changes ∧
    ({ name := "g" } : FunctionChange).signature_change = false ∧
    ({ name := "g" } : FunctionChange).body_change = ({} : ChangeType) ∧
    ({ name := "g" } : FunctionChange).nested_function_change = false :=
  ⟨by decide, (claim_C5_amended moduleOneFunG).2.2.2 { name := "g" } (by decide)⟩

/--
Claim C6, counterexample.  The claim says two statement subtrees that
differ in nested-construct shape (node type tags or recursive
structure) always get different digests.  The statements
`a is b not in c` (operator tags `Is`, `NotIn`) and `a is not b in c`
(operator tags `IsNot`, `In`) differ in their operator node tags, yet
the concatenated tag streams fed to the digest coincide
(`Is ++ NotIn = IsNot ++ In`), so the digests are equal.
-/
theorem claim_C6_counterexample :
    sameShape stmtChainA stmtChainB = false ∧ stmtChainA ≠ stmtChainB ∧
    ASTHasher.visit stmtChainA = ASTHasher.visit stmtChainB :=
  ⟨by decide, by decide, by decide⟩

/--
Claim C6, amended.  Two statement subtrees that differ only in scalar
leaf fields (same shape) always fingerprint identically; a shape
difference usually, but not always, changes the digest: the digest is
exactly the concatenated pre-order tag stream, so, for instance,
wrapping a statement in an `if` (the example the spec gives) does
change it, while tag streams that concatenate to the same string
collide.
-/
theorem claim_C6_amended :
    (∀ a b : ASTNode, sameShape a b = true → ASTHasher.visit a = ASTHasher.visit b) ∧
    ASTHasher.visit stmtPrintX ≠ ASTHasher.visit stmtIfPrintX :=
  ⟨visit_eq_of_sameShape, by decide⟩

/--
Claim C7.  The signature-change flag is set iff the two parameter
subtrees are not deeply equal - a comparison that does inspect leaf
values - and in particular the `greet` pair differing only in a default
parameter value gets signature_change true while its body severity is
unchanged.
-/
theorem claim_C7 :
    (∀ old_func new_func : ASTNode,
      CodeChangeAnalyzer._has_signature_change old_func new_func = true ↔
        old_func.defArgs ≠ new_func.defArgs) ∧
    CodeChangeAnalyzer._has_signature_change greetDefault1 greetDefault2 = true ∧
    CodeChangeAnalyzer._analyze_body_change greetDefault1.defBody greetDefault2.defBody =
      ({} : ChangeType) := by
  refine ⟨?_, by decide, by decide⟩
  intro o n
  constructor
  · intro h heq
    rw [CodeChangeAnalyzer._has_signature_change, heq, compare_ast_nodes_refl] at h
    exact absurd h (by simp)
  · intro hne
    have hc : compare_ast_nodes o.defArgs n.defArgs = false := by
      cases hc : compare_ast_nodes o.defArgs n.defArgs
      · rfl
      · exact absurd ((compare_ast_nodes_eq_true _ _).mp hc) hne
    simp [CodeChangeAnalyzer._has_signature_change, hc]

/--
Claim C8, counterexample.  The claim says swapping two independent
statements always yields severity rearrangement.  The statements
`x = 1` and `y = 2` are independent (distinct targets, no data flow),
but they have the same shape, hence equal fingerprints, so the swapped
body has the same fingerprint sequence and the classifier reports
unchanged - the rearrangement flag stays false.
-/
theorem claim_C8_counterexample :
    CodeChangeAnalyzer._analyze_body_change [stmtXeq1, stmtYeq2] [stmtYeq2, stmtXeq1] =
      ({} : ChangeType) ∧
    (CodeChangeAnalyzer._analyze_body_change [stmtXeq1, stmtYeq2]
      [stmtYeq2, stmtXeq1]).rearrangement = false ∧
    stmtXeq1 ≠ stmtYeq2 :=
  ⟨by decide, by decide, by decide⟩

/--
Claim C8, amended.  Swapping two statements whose fingerprints differ
(and making no other edit) yields severity rearrangement, never
structural and never minor_edit; statements with equal fingerprints
yield unchanged instead.
-/
theorem claim_C8_amended (s t : ASTNode) (h : ASTHasher.visit s ≠ ASTHasher.visit t) :
    CodeChangeAnalyzer._analyze_body_change [s, t] [t, s] =
      { rearrangement := true } := by
  unfold CodeChangeAnalyzer._analyze_body_change
  simp only [List.map_cons, List.map_nil]
  have hsets : ([ASTHasher.visit s, ASTHasher.visit t] : List String).toFinset =
      ([ASTHasher.visit t, ASTHasher.visit s] : List String).toFinset := by
    simp only [List.toFinset_cons, List.toFinset_nil, insert_emptyc_eq]
    exact Finset.pair_comm _ _
  rw [if_neg (fun he => h (by injection he))]
  rw [if_neg (fun hne => hne (by rw [hsets]))]
  rw [if_neg (fun hne => hne hsets)]

/--
Claim C8, witness: the statements `x = 1` and `print(x)` have distinct
fingerprints, and swapping them yields severity rearrangement.
-/
theorem claim_C8_witness :
    ASTHasher.visit stmtXeq1 ≠ ASTHasher.visit stmtPrintX ∧
    CodeChangeAnalyzer._analyze_body_change [stmtXeq1, stmtPrintX] [stmtPrintX, stmtXeq1] =
      { rearrangement := true } :=
  ⟨by decide, claim_C8_amended stmtXeq1 stmtPrintX (by decide)⟩

/--
Claim C9, counterexample.  The claim says same-named definitions in
different scopes do not displace each other.  The visitor keeps one
module-global functions dict: in the module `def foo(): pass` followed
by `class C:` with method `def foo(self): pass`, the method overwrites
the top-level function, which disappears from the table entirely.
-/
theorem claim_C9_counterexample :
    dictLookup (ASTVisitor.functions moduleTwoScopes) "foo" = some fooMethod ∧
    fooMethod ≠ fooTop ∧
    fooTop ∉ (ASTVisitor.functions moduleTwoScopes).map Prod.snd :=
  ⟨by decide, by decide, by decide⟩

/--
Claim C9, amended.  The function table is module-global, not
per-scope: it holds at most one live entry per name, and a lookup
returns the value of the last `functions[name] = node` assignment of
the whole traversal, regardless of the scope the definition sits in
(later same-named definitions displace earlier ones even across
scopes).
-/
theorem claim_C9_amended (t : ASTNode) (k : String) :
    (dictKeys (ASTVisitor.functions t)).Nodup ∧
    dictLookup (ASTVisitor.functions t) k =
      ((funEvents t).filter (fun e => e.1 == k)).getLast?.map Prod.snd :=
  ⟨keys_buildDict_nodup _, dictLookup_buildDict _ _⟩

/--
Claim C10, counterexample.  The claim says a changed line containing a
control-flow keyword is never classified by the assignment rule.  The
assignment rule of `_categorize_change` only excludes the keywords
`if`, `for`, `while`, `def` and `class`: the line
`with open(path) as f: data = f.read()` contains the resource-scope
keyword `with` and an `=`, and is still classified as a minor/3
variable-assignment change.
-/
theorem claim_C10_counterexample :
    Ast2._categorize_change "with open(path) as f: data = f.read()" =
      ⟨"minor", "Variable assignment changed", 3⟩ ∧
    containsSub (pyStrip "with open(path) as f: data = f.read()") "with" = true :=
  ⟨by decide, by decide⟩

/--
Claim C10, amended.  A changed line that the comment, import and blank
rules decline, whose trimmed text contains `=` and none of the
substrings `if`, `for`, `while`, `def`, `class` (the exclusion list of
the assignment rule - not the full control-flow keyword list), is
classified minor with priority 3; and a line containing `elif` is
never classified by the assignment rule, since `elif` contains the
excluded substring `if`.
-/
theorem claim_C10_amended (line : String)
    (h1 : pyStartsWith (pyStrip line) "#" = false)
    (h2 : pyStartsWith (pyStrip line) "import " = false)
    (h3 : pyStartsWith (pyStrip line) "from " = false)
    (h4 : pyStrip line ≠ "")
    (h5 : containsSub (pyStrip line) "=" = true)
    (h6 : ∀ kw ∈ (["if", "for", "while", "def", "class"] : List String),
      containsSub (pyStrip line) kw = false) :
    Ast2._categorize_change line = ⟨"minor", "Variable assignment changed", 3⟩ ∧
    ∀ line2 : String, containsSub (pyStrip line2) "elif" = true →
      Ast2._categorize_change line2 ≠ ⟨"minor", "Variable assignment changed", 3⟩ := by
  constructor
  · have h6' : (["if", "for", "while", "def", "class"].any
        (fun kw => containsSub (pyStrip line) kw)) = false := by
      cases han : (["if", "for", "while", "def", "class"].any
          (fun kw => containsSub (pyStrip line) kw)) with
      | false => rfl
      | true =>
        obtain ⟨kw, hkw, hp⟩ := List.any_eq_true.mp han
        rw [h6 kw hkw] at hp
        exact absurd hp (by simp)
    unfold Ast2._categorize_change
    dsimp only
    rw [if_neg (by simp [h1]), if_neg (by simp [h2, h3]), if_neg h4,
      if_pos (by simp [h5, h6'])]
  · intro line2 helif
    have hif : containsSub (pyStrip line2) "if" = true :=
      containsSub_mono (pyStrip line2) "elif" "if" (by decide) helif
    have hany : (["if", "for", "while", "def", "class"].any
        (fun kw => containsSub (pyStrip line2) kw)) = true :=
      List.any_eq_true.mpr ⟨"if", by simp, hif⟩
    unfold Ast2._categorize_change
    dsimp only
    by_cases c1 : pyStartsWith (pyStrip line2) "#" = true
    · rw [if_pos c1]; decide
    · rw [if_neg c1]
      by_cases c2 : (pyStartsWith (pyStrip line2) "import " ||
          pyStartsWith (pyStrip line2) "from ") = true
      · rw [if_pos c2]; decide
      · rw [if_neg c2]
        by_cases c3 : pyStrip line2 = ""
        · rw [if_pos c3]; decide
        · rw [if_neg c3]
          rw [if_neg (show ¬((containsSub (pyStrip line2) "=" &&
              !(["if", "for", "while", "def", "class"].any
                (fun kw => containsSub (pyStrip line2) kw))) = true) from by
            rw [hany]; simp)]
          by_cases c5 : (["if", "else", "elif", "for", "while", "try", "except",
              "with"].any (fun kw => containsSub (pyStrip line2) kw)) = true
          · rw [if_pos c5]; decide
          · rw [if_neg c5]
            by_cases c6 : (pyStartsWith (pyStrip line2) "def " ||
                pyStartsWith (pyStrip line2) "class ") = true
            · rw [if_pos c6]; decide
            · rw [if_neg c6]; decide

/--
Claim C10, witness: the line `x = compute(y)` contains `=` and none of
the excluded keywords and is classified minor with priority 3, while
the line `elif done: x = 1` contains `elif` (hence the excluded
substring `if`) and is not assignment-classified - the control-flow
rule takes it at major priority 9.
-/
theorem claim_C10_witness :
    Ast2._categorize_change "x = compute(y)" =
      ⟨"minor", "Variable assignment changed", 3⟩ ∧
    containsSub (pyStrip "elif done: x = 1") "elif" = true ∧
    Ast2._categorize_change "elif done: x = 1" ≠
      ⟨"minor", "Variable assignment changed", 3⟩ ∧
    Ast2._categorize_change "elif done: x = 1" = ⟨"major", "Control flow changed", 9⟩ :=
  ⟨(claim_C10_amended "x = compute(y)" (by decide) (by decide) (by decide)
      (by decide) (by decide) (by decide)).1,
   by decide,
   (claim_C10_amended "x = compute(y)" (by decide) (by decide) (by decide)
      (by decide) (by decide) (by decide)).2 "elif done: x = 1" (by decide),
   by decide⟩
